import Mathlib

/-!
Shallow embedding of `src/editor/workspace/paths.py` (CLDL editor workspace
identity and path-layout resolver).

Python strings are Lean `String`s (operated on through their `List Char`
data); filesystem paths are lists of components (`PathC`); the filesystem
is the list of directories that exist (`FS`); the Qt platform root and
`pathlib.Path.resolve()` are supplied by an explicit environment record.
Raised exceptions become `Except PyError`.  Library calls made by the
source (`uuid.UUID` string parsing, `pathlib` name/stem, `hashlib.sha256`)
are embedded concretely, following the CPython 3.11 implementations, for
ASCII inputs (CPython's `int(s, 16)` additionally accepts non-ASCII digits
and Unicode whitespace, which no input considered here contains).
-/

set_option maxRecDepth 16384

namespace CldlPaths

/-- Python exceptions raised by the embedded code. -/
inductive PyError where
  | runtimeError : String → PyError
  | valueError : String → PyError
deriving DecidableEq, Repr

/-! ## Generic string helpers (models of CPython string operations) -/

/-- Splits a character list at every occurrence of `sep` (model of
`str.split(sep)` keeping empty fields). -/
def splitChar (sep : Char) : List Char → List (List Char)
  | [] => [[]]
  | c :: rest =>
    match splitChar sep rest with
    | [] => [[c]]
    | cur :: rs => if c = sep then [] :: cur :: rs else (c :: cur) :: rs

/-- Fuel-indexed worker for `removeOccs`; the fuel bounds the number of
steps so the recursion is structural. -/
def removeOccsAux (pat : List Char) : Nat → List Char → List Char
  | _, [] => []
  | 0, s => s
  | fuel + 1, c :: rest =>
    if pat.isPrefixOf (c :: rest) && !pat.isEmpty then
      removeOccsAux pat fuel ((c :: rest).drop pat.length)
    else
      c :: removeOccsAux pat fuel rest

/-- Model of CPython `s.replace(pat, '')`: removes the non-overlapping
occurrences of `pat`, scanning left to right. -/
def removeOccs (pat s : List Char) : List Char :=
  removeOccsAux pat s.length s

/-- The two characters stripped by `str.strip('\x7b\x7d')`. -/
def braceChars : List Char := ['{', '}']

/-- Model of CPython `s.strip('\x7b\x7d')`: drops leading and trailing
curly braces. -/
def stripBraces (s : List Char) : List Char :=
  ((s.dropWhile braceChars.contains).reverse.dropWhile braceChars.contains).reverse

/-- The ASCII whitespace characters recognised by CPython's `str.strip()`
and by `int()`'s surrounding-whitespace rule. -/
def pyWhitespace : List Char := [' ', '\t', '\n', '\r', Char.ofNat 11, Char.ofNat 12]

/-- Strips leading and trailing ASCII whitespace (model of the whitespace
handling of CPython `int(s, base)`). -/
def stripWs (s : List Char) : List Char :=
  ((s.dropWhile pyWhitespace.contains).reverse.dropWhile pyWhitespace.contains).reverse

/-- Is `c` a hexadecimal digit (either case)? -/
def isHexDigitChar (c : Char) : Bool :=
  ('0' ≤ c && c ≤ '9') || ('a' ≤ c && c ≤ 'f') || ('A' ≤ c && c ≤ 'F')

/-- Numeric value of a hexadecimal digit. -/
def hexVal (c : Char) : Nat :=
  if c ≤ '9' then c.toNat - 48 else if c ≤ 'F' then c.toNat - 55 else c.toNat - 87

/-- Tail of a CPython base-16 digit run: digits with single underscores
allowed only between digits. -/
def hexTail : List Char → Bool
  | [] => true
  | c :: rest =>
    if c = '_' then
      match rest with
      | [] => false
      | d :: r => isHexDigitChar d && hexTail r
    else
      isHexDigitChar c && hexTail rest

/-- A nonempty CPython base-16 digit run (underscores only between digits). -/
def hexRun : List Char → Bool
  | [] => false
  | c :: rest => isHexDigitChar c && hexTail rest

/-- Consumes an optional leading sign (model of `int()`'s sign handling);
returns the negative flag and the rest. -/
def parseSign : List Char → Bool × List Char
  | '+' :: r => (false, r)
  | '-' :: r => (true, r)
  | s => (false, s)

/-- Consumes an optional `0x`/`0X` prefix, after which one underscore may
directly follow (CPython `int(s, 16)` tokenisation). -/
def dropHexPre (s : List Char) : List Char :=
  match s with
  | '0' :: c :: r =>
    if c = 'x' || c = 'X' then
      match r with
      | '_' :: r2 => r2
      | _ => r
    else s
  | _ => s

/-- Model of CPython `int(s, 16)` for ASCII inputs: optional surrounding
whitespace, optional sign, optional `0x` prefix, then a nonempty run of
hex digits with single underscores between digits.  Returns `none` where
CPython raises `ValueError`. -/
def pyIntHex (s : List Char) : Option Int :=
  let t := stripWs s
  let (neg, t1) := parseSign t
  let body := dropHexPre t1
  if hexRun body then
    let v : Nat := (body.filter (fun c => c ≠ '_')).foldl (fun a c => a * 16 + hexVal c) 0
    some (if neg then -(v : Int) else (v : Int))
  else
    none

/-! ## `uuid.UUID(s)` / `isUUID` -/

/-- Model of `uuid.UUID(hex=s)` acceptance (CPython 3.11): remove every
`urn:` and `uuid:` substring, strip curly braces, remove hyphens, require
exactly 32 remaining characters, parse them with `int(_, 16)` and require
the value to be a 128-bit non-negative integer.  `isUUID` in the source
returns `True` exactly when this succeeds.  `uuidCleaned` is the
character list left after the removals and the brace strip. -/
def uuidCleaned (s : String) : List Char :=
  removeOccs ['-'] (stripBraces (removeOccs "uuid:".data (removeOccs "urn:".data s.data)))

/-- Does `int(h, 16)` succeed with a 128-bit non-negative value? -/
def uuidIntOk (h : List Char) : Bool :=
  match pyIntHex h with
  | some n => decide (0 ≤ n ∧ n < 2 ^ 128)
  | none => false

/-- The source's `isUUID(s)`: `uuid.UUID(s)` succeeds. -/
def isUUID (s : String) : Bool :=
  ((uuidCleaned s).length == 32) && uuidIntOk (uuidCleaned s)

/-! ## `pathlib` name/stem -/

/-- Path components of a path string: split on `/`, dropping empty parts
and `.` parts (the `pathlib` parsing relevant to `.name` and to joining). -/
def pathComponents (s : String) : List String :=
  ((splitChar '/' s.data).filter (fun l => l ≠ [] && l ≠ ['.'])).map (fun l => (⟨l⟩ : String))

/-- Model of `pathlib.Path(s).name`: the final path component, `""` for an
empty or root path. -/
def pathName (s : String) : String :=
  (pathComponents s).getLastD ""

/-- Index of the last `.` in a character list, if any. -/
def lastDotIdx : List Char → Option Nat
  | [] => none
  | c :: rest =>
    match lastDotIdx rest with
    | some i => some (i + 1)
    | none => if c = '.' then some 0 else none

/-- Model of `pathlib`'s `stem` computation on a file name: cut at the last
dot when that dot is neither the first nor the last character. -/
def stemOfName (name : List Char) : List Char :=
  match lastDotIdx name with
  | some i => if 0 < i && i < name.length - 1 then name.take i else name
  | none => name

/-- Model of `pathlib.Path(s).stem`. -/
def pathStem (s : String) : String :=
  ⟨stemOfName (pathName s).data⟩

/-! ## SHA-256 (model of `hashlib.sha256(...).hexdigest()`)

Words are `Nat`s kept below `2 ^ 32` by explicit reduction. -/

/-- Reduce to a 32-bit word. -/
def w32 (n : Nat) : Nat := n % 4294967296

/-- Right rotation of a 32-bit word by `k` (for `k ≤ 32`). -/
def rotr (x k : Nat) : Nat := w32 ((x >>> k) + (x % 2 ^ k) * 2 ^ (32 - k))

/-- Bitwise complement of a 32-bit word. -/
def bnot32 (x : Nat) : Nat := x ^^^ 4294967295

/-- SHA-256 `Ch` function. -/
def ch (x y z : Nat) : Nat := (x &&& y) ^^^ (bnot32 x &&& z)

/-- SHA-256 `Maj` function. -/
def maj (x y z : Nat) : Nat := (x &&& y) ^^^ (x &&& z) ^^^ (y &&& z)

/-- SHA-256 `Σ₀`. -/
def bigSigma0 (x : Nat) : Nat := rotr x 2 ^^^ rotr x 13 ^^^ rotr x 22

/-- SHA-256 `Σ₁`. -/
def bigSigma1 (x : Nat) : Nat := rotr x 6 ^^^ rotr x 11 ^^^ rotr x 25

/-- SHA-256 `σ₀`. -/
def smallSigma0 (x : Nat) : Nat := rotr x 7 ^^^ rotr x 18 ^^^ (x >>> 3)

/-- SHA-256 `σ₁`. -/
def smallSigma1 (x : Nat) : Nat := rotr x 17 ^^^ rotr x 19 ^^^ (x >>> 10)

/-- The 64 SHA-256 round constants (decimal). -/
def sha256K : List Nat :=
  [1116352408, 1899447441, 3049323471, 3921009573, 961987163, 1508970993,
   2453635748, 2870763221, 3624381080, 310598401, 607225278, 1426881987,
   1925078388, 2162078206, 2614888103, 3248222580, 3835390401, 4022224774,
   264347078, 604807628, 770255983, 1249150122, 1555081692, 1996064986,
   2554220882, 2821834349, 2952996808, 3210313671, 3336571891, 3584528711,
   113926993, 338241895, 666307205, 773529912, 1294757372, 1396182291,
   1695183700, 1986661051, 2177026350, 2456956037, 2730485921, 2820302411,
   3259730800, 3345764771, 3516065817, 3600352804, 4094571909, 275423344,
   430227734, 506948616, 659060556, 883997877, 958139571, 1322822218,
   1537002063, 1747873779, 1955562222, 2024104815, 2227730452, 2361852424,
   2428436474, 2756734187, 3204031479, 3329325298]

/-- Working state: eight 32-bit words. -/
structure Hash8 where
  a : Nat
  b : Nat
  c : Nat
  d : Nat
  e : Nat
  f : Nat
  g : Nat
  h : Nat

/-- The SHA-256 initial hash value (decimal). -/
def sha256H0 : Hash8 :=
  ⟨1779033703, 3144134277, 1013904242, 2773480762,
   1359893119, 2600822924, 528734635, 1541459225⟩

/-- Big-endian 8-byte encoding of a length in bits. -/
def be64 (n : Nat) : List Nat :=
  [(n >>> 56) % 256, (n >>> 48) % 256, (n >>> 40) % 256, (n >>> 32) % 256,
   (n >>> 24) % 256, (n >>> 16) % 256, (n >>> 8) % 256, n % 256]

/-- SHA-256 padding: append `0x80`, zeros to 56 mod 64, then the bit length. -/
def padMessage (msg : List Nat) : List Nat :=
  msg ++ [128] ++ List.replicate ((119 - msg.length % 64) % 64) 0 ++ be64 (msg.length * 8)

/-- Fuel-indexed split of a byte list into 64-byte blocks. -/
def toBlocksAux : Nat → List Nat → List (List Nat)
  | _, [] => []
  | 0, _ => []
  | fuel + 1, l => l.take 64 :: toBlocksAux fuel (l.drop 64)

/-- Split a byte list into 64-byte blocks. -/
def toBlocks (l : List Nat) : List (List Nat) := toBlocksAux l.length l

/-- Combine four bytes into a big-endian 32-bit word. -/
def beWord (a b c d : Nat) : Nat := ((a * 256 + b) * 256 + c) * 256 + d

/-- The sixteen initial message-schedule words of a block. -/
def toWords : List Nat → List Nat
  | a :: b :: c :: d :: rest => beWord a b c d :: toWords rest
  | _ => []

/-- Extend the message schedule by `steps` further words. -/
def extendSchedule (w : List Nat) : Nat → List Nat
  | 0 => w
  | steps + 1 =>
    let t := w.length
    let nw := w32 (smallSigma1 (w.getD (t - 2) 0) + w.getD (t - 7) 0 +
                   smallSigma0 (w.getD (t - 15) 0) + w.getD (t - 16) 0)
    extendSchedule (w ++ [nw]) steps

/-- One SHA-256 compression round. -/
def roundStep (s : Hash8) (k w : Nat) : Hash8 :=
  let t1 := w32 (s.h + bigSigma1 s.e + ch s.e s.f s.g + k + w)
  let t2 := w32 (bigSigma0 s.a + maj s.a s.b s.c)
  ⟨w32 (t1 + t2), s.a, s.b, s.c, w32 (s.d + t1), s.e, s.f, s.g⟩

/-- Compress one 64-byte block into the running hash value. -/
def compressBlock (h0 : Hash8) (block : List Nat) : Hash8 :=
  let w := extendSchedule (toWords block) 48
  let s := (sha256K.zip w).foldl (fun s kw => roundStep s kw.1 kw.2) h0
  ⟨w32 (h0.a + s.a), w32 (h0.b + s.b), w32 (h0.c + s.c), w32 (h0.d + s.d),
   w32 (h0.e + s.e), w32 (h0.f + s.f), w32 (h0.g + s.g), w32 (h0.h + s.h)⟩

/-- The eight 32-bit words of the SHA-256 digest of a byte list. -/
def sha256Words (msg : List Nat) : List Nat :=
  let h := (toBlocks (padMessage msg)).foldl compressBlock sha256H0
  [h.a, h.b, h.c, h.d, h.e, h.f, h.g, h.h]

/-- The sixteen lowercase hexadecimal digits. -/
def lowHexChars : List Char := "0123456789abcdef".data

/-- Lowercase hexadecimal digit for a nibble. -/
def hexChar (n : Nat) : Char := lowHexChars.getD n '0'

/-- The eight lowercase hex digits of a 32-bit word, most significant first. -/
def wordToHex (n : Nat) : List Char :=
  (List.range 8).map (fun i => hexChar ((n >>> (28 - 4 * i)) % 16))

/-- Model of `hashlib.sha256(msg).hexdigest()`: 64 lowercase hex characters. -/
def sha256Hexdigest (msg : List Nat) : List Char :=
  ((sha256Words msg).map wordToHex).flatten

/-- UTF-8 encoding of one code point (model of `str.encode("utf-8")`
per code point). -/
def utf8Cp (c : Nat) : List Nat :=
  if c < 0x80 then [c]
  else if c < 0x800 then [0xc0 + c / 0x40, 0x80 + c % 0x40]
  else if c < 0x10000 then
    [0xe0 + c / 0x1000, 0x80 + c / 0x40 % 0x40, 0x80 + c % 0x40]
  else
    [0xf0 + c / 0x40000, 0x80 + c / 0x1000 % 0x40, 0x80 + c / 0x40 % 0x40, 0x80 + c % 0x40]

/-- Model of `s.encode("utf-8")` as a byte list. -/
def utf8Encode (s : String) : List Nat :=
  (s.data.map (fun c => utf8Cp c.toNat)).flatten

/-! ## Environment and filesystem model -/

/-- An absolute filesystem path as its list of components. -/
abbrev PathC := List String

/-- The filesystem: the list of directories that exist. -/
abbrev FS := List PathC

/-- The ambient platform, fixed for a process:
`appLocalDataPath` is what `QStandardPaths.writableLocation` returns for
`AppLocalDataLocation` (the empty string when unavailable), and `resolve`
is `str(Path(p).resolve())` — canonical absolute form under the platform's
symlink and relative-path resolution rules. -/
structure Env where
  appLocalDataPath : String
  resolve : String → String

/-- All nonempty prefixes of a path — the directories
`mkdir(parents=True)` guarantees to exist. -/
def prefixesOf (p : PathC) : List PathC :=
  (List.range p.length).map (fun i => p.take (i + 1))

/-- Model of `Path.mkdir(parents=True, exist_ok=True)`: every missing
ancestor (and the path itself) is added to the filesystem; pre-existing
directories are left alone and are not an error. -/
def mkdirParents (fs : FS) (p : PathC) : FS :=
  (prefixesOf p).foldl (fun acc q => if q ∈ acc then acc else acc ++ [q]) fs

/-- Qt's process-wide organisation/application identity
(`QCoreApplication` state read by `QStandardPaths`). -/
structure QtAppIdentity where
  organizationName : String
  applicationName : String
deriving DecidableEq, Repr

/-- `ensure_app_identity(org_name, app_name)`: calls
`setOrganizationName(org_name)` then `setApplicationName(app_name)` —
unconditionally, whatever the current identity is.  Total: cannot fail. -/
def ensure_app_identity (_st : QtAppIdentity) (org_name app_name : String) : QtAppIdentity :=
  { organizationName := org_name, applicationName := app_name }

/-- `app_local_data_root()`: the platform data root as a `Path`; raises
`RuntimeError` when Qt returns a falsy (empty) string. -/
def app_local_data_root (env : Env) : Except PyError PathC :=
  if env.appLocalDataPath = "" then
    .error (.runtimeError "Qt did not return the AppLocalDataLocation path.")
  else
    .ok (pathComponents env.appLocalDataPath)

/-- The `AppDirs` dataclass of the source. -/
structure AppDirs where
  root : PathC
  workspaces : PathC
  backups : PathC
  recovery : PathC
  logs : PathC
deriving DecidableEq, Repr

/-- `ensure_base_dirs()`: computes the `AppDirs` record from the root and
creates `workspaces`, `recovery` and `logs` on disk (not `backups`). -/
def ensure_base_dirs (env : Env) (fs : FS) : Except PyError (AppDirs × FS) := do
  let root ← app_local_data_root env
  let dirs : AppDirs :=
    { root := root
      workspaces := root ++ ["workspaces"]
      backups := root ++ ["backups"]
      recovery := root ++ ["recovery"]
      logs := root ++ ["logs"] }
  let fs1 := mkdirParents fs dirs.workspaces
  let fs2 := mkdirParents fs1 dirs.recovery
  let fs3 := mkdirParents fs2 dirs.logs
  .ok (dirs, fs3)

/-- The truthiness-guarded identifier test of `project_key`'s first line:
`if project_uid and isUUID(project_uid)`. -/
def uidOk (project_uid : Option String) : Bool :=
  match project_uid with
  | some u => u ≠ "" && isUUID u
  | none => false

/-- The fallback branch of `project_key`: require a container path,
resolve it, and key on the truncated digest of the resolved string. -/
def project_key_fb (env : Env) (container_path : Option String) : Except PyError String :=
  match container_path with
  | none => .error (.valueError "You need either project_uid or container_path to calculate the key.")
  | some p =>
    let absolute_path := env.resolve p
    let digest := (sha256Hexdigest (utf8Encode absolute_path)).take 16
    .ok ("path_" ++ (⟨digest⟩ : String))

/-- `project_key(project_uid, container_path)`: the identifier when truthy
and accepted by `isUUID`, otherwise the path-hash fallback. -/
def project_key (env : Env) (project_uid : Option String)
    (container_path : Option String) : Except PyError String :=
  match project_uid with
  | some u => if u ≠ "" && isUUID u then .ok u else project_key_fb env container_path
  | none => project_key_fb env container_path

/-- `workspace_root(project_uid, container_path)`: ensures the base
directories, computes the key, and creates `<workspaces>/<key>/`. -/
def workspace_root (env : Env) (fs : FS) (project_uid : Option String)
    (container_path : Option String) : Except PyError (PathC × FS) := do
  let (dirs, fs1) ← ensure_base_dirs env fs
  let key ← project_key env project_uid container_path
  let path := dirs.workspaces ++ [key]
  .ok (path, mkdirParents fs1 path)

/-- `unpacked_dir(project_uid, container_path)`: `<workspace_root>/unpacked/`,
created on disk. -/
def unpacked_dir (env : Env) (fs : FS) (project_uid : Option String)
    (container_path : Option String) : Except PyError (PathC × FS) := do
  let (w, fs1) ← workspace_root env fs project_uid container_path
  let path := w ++ ["unpacked"]
  .ok (path, mkdirParents fs1 path)

/-- `lock_path(project_uid, container_path)`: `<workspace_root>/lock.json`. -/
def lock_path (env : Env) (fs : FS) (project_uid : Option String)
    (container_path : Option String) : Except PyError (PathC × FS) := do
  let (w, fs1) ← workspace_root env fs project_uid container_path
  .ok (w ++ ["lock.json"], fs1)

/-- `session_path(project_uid, container_path)`: `<workspace_root>/session.json`. -/
def session_path (env : Env) (fs : FS) (project_uid : Option String)
    (container_path : Option String) : Except PyError (PathC × FS) := do
  let (w, fs1) ← workspace_root env fs project_uid container_path
  .ok (w ++ ["session.json"], fs1)

/-- `pack_temp_path(container_path)`: `<root>/tmp/<stem>.tmp.cldl`, with
`tmp` created on disk. -/
def pack_temp_path (env : Env) (fs : FS) (container_path : String) :
    Except PyError (PathC × FS) := do
  let (dirs, fs1) ← ensure_base_dirs env fs
  let tmp_dir := dirs.root ++ ["tmp"]
  let fs2 := mkdirParents fs1 tmp_dir
  .ok (tmp_dir ++ [pathStem container_path ++ ".tmp.cldl"], fs2)

/-! ## Spec-side definitions (for the refinement claims about the key
grammar; written from the spec's words, to be compared with the code). -/

/-- Written from the spec: a canonical hyphenated 128-bit identifier
string — `8-4-4-4-12` hexadecimal digits separated by hyphens at
positions 8, 13, 18 and 23. -/
def canonicalUuidString (s : String) : Bool :=
  s.data.length = 36 &&
    (List.range 36).all (fun i =>
      if i = 8 || i = 13 || i = 18 || i = 23 then s.data.getD i ' ' = '-'
      else isHexDigitChar (s.data.getD i ' '))

/-- Written from the spec: `path_` followed by exactly 16 lowercase
hexadecimal characters. -/
def pathKeyShape (s : String) : Bool :=
  s.data.take 5 = "path_".data && s.data.length = 21 &&
    (s.data.drop 5).all (fun c => c ∈ lowHexChars)

/-- Written from the spec: the stated project-key grammar — a canonical
hyphenated identifier or a `path_`-prefixed 16-hex-digit key. -/
def specKeyGrammar (s : String) : Bool :=
  canonicalUuidString s || pathKeyShape s

/-- The fixed environment used to instantiate the theorems below: the
platform root is `/r` and path resolution is the identity (every path
already canonical). -/
def env0 : Env := { appLocalDataPath := "/r", resolve := fun s => s }

/-! ## Lemmas about the filesystem model -/

theorem mem_foldl_insertDir (l : List PathC) (fs : FS) (x : PathC) :
    x ∈ l.foldl (fun acc q => if q ∈ acc then acc else acc ++ [q]) fs ↔ x ∈ fs ∨ x ∈ l := by
  induction l generalizing fs with
  | nil => simp
  | cons q t ih =>
    simp only [List.foldl_cons, ih, List.mem_cons]
    by_cases hq : q ∈ fs
    · simp only [if_pos hq]
      constructor
      · rintro (h | h)
        · exact Or.inl h
        · exact Or.inr (Or.inr h)
      · rintro (h | rfl | h)
        · exact Or.inl h
        · exact Or.inl hq
        · exact Or.inr h
    · simp only [if_neg hq, List.mem_append, List.mem_singleton]
      tauto

theorem foldl_insertDir_eq_self (l : List PathC) (fs : FS) (h : ∀ q ∈ l, q ∈ fs) :
    l.foldl (fun acc q => if q ∈ acc then acc else acc ++ [q]) fs = fs := by
  induction l with
  | nil => rfl
  | cons q t ih =>
    have hq : q ∈ fs := h q (List.mem_cons_self q t)
    simp only [List.foldl_cons, if_pos hq]
    exact ih fun r hr => h r (List.mem_cons_of_mem q hr)

theorem mem_mkdirParents (fs : FS) (p x : PathC) :
    x ∈ mkdirParents fs p ↔ x ∈ fs ∨ x ∈ prefixesOf p :=
  mem_foldl_insertDir (prefixesOf p) fs x

theorem mkdirParents_eq_self (fs : FS) (p : PathC) (h : ∀ q ∈ prefixesOf p, q ∈ fs) :
    mkdirParents fs p = fs :=
  foldl_insertDir_eq_self (prefixesOf p) fs h

theorem mem_mkdirParents_of_mem (fs : FS) (p x : PathC) (h : x ∈ fs) :
    x ∈ mkdirParents fs p :=
  (mem_mkdirParents fs p x).2 (Or.inl h)

theorem prefixesOf_mem_mkdirParents (fs : FS) (p x : PathC) (h : x ∈ prefixesOf p) :
    x ∈ mkdirParents fs p :=
  (mem_mkdirParents fs p x).2 (Or.inr h)

theorem mem_prefixesOf (p q : PathC) :
    q ∈ prefixesOf p ↔ ∃ i, i < p.length ∧ q = p.take (i + 1) := by
  simp [prefixesOf, List.mem_map, eq_comm]

theorem self_mem_prefixesOf (p : PathC) (h : p ≠ []) : p ∈ prefixesOf p := by
  have hpos : 0 < p.length := List.length_pos.2 h
  refine (mem_prefixesOf p p).2 ⟨p.length - 1, by omega, ?_⟩
  have hl : p.length - 1 + 1 = p.length := by omega
  rw [hl, List.take_length]

theorem append_single_mem_prefixesOf (r : PathC) (a : String) :
    r ++ [a] ∈ prefixesOf (r ++ [a]) :=
  self_mem_prefixesOf _ (by simp)

theorem append_single_not_mem_prefixesOf (r : PathC) (a b : String) (hab : a ≠ b) :
    r ++ [a] ∉ prefixesOf (r ++ [b]) := by
  intro h
  rcases (mem_prefixesOf _ _).1 h with ⟨i, hi, heq⟩
  have hlen : (r ++ [a]).length = ((r ++ [b]).take (i + 1)).length := by rw [heq]
  simp only [List.length_append, List.length_singleton, List.length_take] at hlen
  have hienough : i + 1 = r.length + 1 := by
    simp only [List.length_append, List.length_singleton] at hi
    omega
  have h2 : List.length r + 1 = (r ++ [b]).length := by simp
  rw [hienough, h2, List.take_length] at heq
  exact hab (by simpa using List.append_cancel_left heq)

/-! ## Lemmas about the CPython string models -/

theorem mem_of_isPrefixOfTrue :
    ∀ (l₁ l₂ : List Char), l₁.isPrefixOf l₂ = true → ∀ x ∈ l₁, x ∈ l₂ := by
  intro l₁
  induction l₁ with
  | nil => intro l₂ _ x hx; exact absurd hx (List.not_mem_nil x)
  | cons a t ih =>
    intro l₂ h x hx
    cases l₂ with
    | nil => simp [List.isPrefixOf] at h
    | cons b t₂ =>
      simp only [List.isPrefixOf, Bool.and_eq_true, beq_iff_eq] at h
      rcases List.mem_cons.1 hx with rfl | hxt
      · exact h.1 ▸ List.mem_cons_self _ _
      · exact List.mem_cons_of_mem _ (ih t₂ h.2 x hxt)

theorem removeOccsAux_eq_self (pat : List Char) (x : Char) (hx : x ∈ pat) :
    ∀ (fuel : Nat) (s : List Char), x ∉ s → removeOccsAux pat fuel s = s := by
  intro fuel
  induction fuel with
  | zero =>
    intro s _
    cases s with
    | nil => rfl
    | cons c rest => rfl
  | succ f ih =>
    intro s hs
    cases s with
    | nil => rfl
    | cons c rest =>
      have hpre : pat.isPrefixOf (c :: rest) = false := by
        cases hp : pat.isPrefixOf (c :: rest) with
        | false => rfl
        | true => exact absurd (mem_of_isPrefixOfTrue pat (c :: rest) hp x hx) hs
      simp only [removeOccsAux, hpre, Bool.false_and, if_neg Bool.false_ne_true]
      have : x ∉ rest := fun hr => hs (List.mem_cons_of_mem c hr)
      rw [ih rest this]

theorem removeOccs_eq_self (pat s : List Char) (x : Char) (hx : x ∈ pat) (hs : x ∉ s) :
    removeOccs pat s = s :=
  removeOccsAux_eq_self pat x hx s.length s hs

theorem dropWhile_eq_self_of_none (p : Char → Bool) (l : List Char)
    (h : ∀ c ∈ l, p c = false) : l.dropWhile p = l := by
  cases l with
  | nil => rfl
  | cons c t => simp [List.dropWhile, h c (List.mem_cons_self c t)]

theorem stripBraces_eq_self (s : List Char) (h : ∀ c ∈ s, ¬ c ∈ braceChars) :
    stripBraces s = s := by
  have hcontains : ∀ c ∈ s, braceChars.contains c = false := by
    intro c hc
    simpa [List.contains] using h c hc
  unfold stripBraces
  rw [dropWhile_eq_self_of_none _ s hcontains,
    dropWhile_eq_self_of_none _ s.reverse (fun c hc => hcontains c (List.mem_reverse.1 hc)),
    List.reverse_reverse]

theorem isUUID_eq_false_of_plain (s : String)
    (hcolon : ':' ∉ s.data) (hdash : '-' ∉ s.data)
    (hbr : ∀ c ∈ s.data, ¬ c ∈ braceChars)
    (hlen : s.data.length ≠ 32) : isUUID s = false := by
  have hclean : uuidCleaned s = s.data := by
    unfold uuidCleaned
    rw [removeOccs_eq_self "urn:".data s.data ':' (by decide) hcolon,
      removeOccs_eq_self "uuid:".data s.data ':' (by decide) hcolon,
      stripBraces_eq_self s.data hbr,
      removeOccs_eq_self ['-'] s.data '-' (by decide) hdash]
  unfold isUUID
  rw [hclean]
  have : (s.data.length == 32) = false := by simpa using hlen
  rw [this, Bool.false_and]

/-! ## Lemmas about the digest and the path-hash key shape -/

theorem hexChar_mem (n : Nat) : hexChar n ∈ lowHexChars := by
  unfold hexChar List.getD
  cases h : lowHexChars.get? n with
  | none => exact by decide
  | some c => exact List.get?_mem h

theorem sha256Hexdigest_mem (m : List Nat) :
    ∀ c ∈ sha256Hexdigest m, c ∈ lowHexChars := by
  intro c hc
  unfold sha256Hexdigest at hc
  rcases List.mem_flatten.1 hc with ⟨l, hl, hcl⟩
  rcases List.mem_map.1 hl with ⟨w, _, rfl⟩
  rcases List.mem_map.1 hcl with ⟨i, _, rfl⟩
  exact hexChar_mem _

theorem sha256Hexdigest_length (m : List Nat) : (sha256Hexdigest m).length = 64 := by
  simp [sha256Hexdigest, sha256Words, wordToHex]

/-- The character data of a path-hash key. -/
theorem pathKey_data (m : List Nat) :
    ("path_" ++ (⟨(sha256Hexdigest m).take 16⟩ : String)).data =
      "path_".data ++ (sha256Hexdigest m).take 16 := rfl

theorem pathKey_shape (m : List Nat) :
    pathKeyShape ("path_" ++ (⟨(sha256Hexdigest m).take 16⟩ : String)) = true := by
  simp only [pathKeyShape, pathKey_data, Bool.and_eq_true, decide_eq_true_eq,
    List.all_eq_true]
  refine ⟨⟨?_, ?_⟩, ?_⟩
  · have h5 : ("path_".data).length = 5 := rfl
    rw [← h5, List.take_left]
  · simp [List.length_take, sha256Hexdigest_length]
  · intro c hc
    have hc' : c ∈ (sha256Hexdigest m).take 16 := by
      have h5 : ("path_".data).length = 5 := rfl
      rwa [← h5, List.drop_left] at hc
    exact sha256Hexdigest_mem m c (List.take_subset 16 _ hc')

theorem pathKey_not_uuid (m : List Nat) :
    isUUID ("path_" ++ (⟨(sha256Hexdigest m).take 16⟩ : String)) = false := by
  have hmem : ∀ x : Char, x ∈ ("path_" ++ (⟨(sha256Hexdigest m).take 16⟩ : String)).data →
      x ∈ "path_".data ∨ x ∈ lowHexChars := by
    intro x hx
    rw [pathKey_data] at hx
    rcases List.mem_append.1 hx with h | h
    · exact Or.inl h
    · exact Or.inr (sha256Hexdigest_mem m x (List.take_subset 16 _ h))
  apply isUUID_eq_false_of_plain
  · intro h
    rcases hmem ':' h with h' | h' <;> revert h' <;> decide
  · intro h
    rcases hmem '-' h with h' | h' <;> revert h' <;> decide
  · intro c hc hbr
    rcases hmem c hc with h' | h' <;>
      simp only [braceChars, List.mem_cons, List.not_mem_nil, or_false] at hbr <;>
      rcases hbr with rfl | rfl <;> revert h' <;> decide
  · rw [pathKey_data]
    simp [List.length_take, sha256Hexdigest_length]

/-! ## Lemmas about the resolver operations -/

theorem isUUID_empty_false : isUUID "" = false := by decide

theorem project_key_uid_eq (env : Env) (u : String) (cp : Option String)
    (h : isUUID u = true) : project_key env (some u) cp = .ok u := by
  have hne : u ≠ "" := by
    intro he
    rw [he] at h
    exact absurd h (by simp [isUUID_empty_false])
  simp [project_key, hne, h]

theorem project_key_fb_eq (env : Env) (uid : Option String) (cp : Option String)
    (h : uidOk uid = false) : project_key env uid cp = project_key_fb env cp := by
  cases uid with
  | none => rfl
  | some u =>
    have h' : (decide (u ≠ "") && isUUID u) = false := h
    simp only [project_key]
    rw [if_neg (by rw [h']; exact Bool.false_ne_true)]

/-- Reduction of a successful `Except` bind. -/
theorem exceptBind_ok {α β : Type} (a : α) (f : α → Except PyError β) :
    (Except.ok a >>= f) = f a := rfl

/-- Reduction of a failed `Except` bind. -/
theorem exceptBind_err {α β : Type} (e : PyError) (f : α → Except PyError β) :
    ((Except.error e : Except PyError α) >>= f) = .error e := rfl

theorem ensure_base_dirs_eq (env : Env) (fs : FS) (root : PathC)
    (h : app_local_data_root env = .ok root) :
    ensure_base_dirs env fs = .ok
      ({ root := root
         workspaces := root ++ ["workspaces"]
         backups := root ++ ["backups"]
         recovery := root ++ ["recovery"]
         logs := root ++ ["logs"] },
        mkdirParents (mkdirParents (mkdirParents fs (root ++ ["workspaces"]))
          (root ++ ["recovery"])) (root ++ ["logs"])) := by
  unfold ensure_base_dirs
  rw [h, exceptBind_ok]

theorem ensure_base_dirs_err (env : Env) (fs : FS) (e : PyError)
    (h : app_local_data_root env = .error e) :
    ensure_base_dirs env fs = .error e := by
  unfold ensure_base_dirs
  rw [h, exceptBind_err]

theorem workspace_root_eq (env : Env) (fs : FS) (uid cp : Option String)
    (root : PathC) (key : String)
    (hr : app_local_data_root env = .ok root)
    (hk : project_key env uid cp = .ok key) :
    workspace_root env fs uid cp = .ok ((root ++ ["workspaces"]) ++ [key],
      mkdirParents (mkdirParents (mkdirParents (mkdirParents fs (root ++ ["workspaces"]))
        (root ++ ["recovery"])) (root ++ ["logs"])) ((root ++ ["workspaces"]) ++ [key])) := by
  unfold workspace_root
  rw [ensure_base_dirs_eq env fs root hr, exceptBind_ok, hk]
  rfl

theorem workspace_root_ok_inv (env : Env) (fs : FS) (uid cp : Option String)
    (w : PathC) (fs' : FS) (h : workspace_root env fs uid cp = .ok (w, fs')) :
    ∃ root key, app_local_data_root env = .ok root ∧ project_key env uid cp = .ok key ∧
      w = (root ++ ["workspaces"]) ++ [key] ∧
      fs' = mkdirParents (mkdirParents (mkdirParents (mkdirParents fs (root ++ ["workspaces"]))
        (root ++ ["recovery"])) (root ++ ["logs"])) w := by
  cases hr : app_local_data_root env with
  | error e =>
    unfold workspace_root at h
    rw [ensure_base_dirs_err env fs e hr, exceptBind_err] at h
    exact Except.noConfusion h
  | ok root =>
    cases hk : project_key env uid cp with
    | error e =>
      unfold workspace_root at h
      rw [ensure_base_dirs_eq env fs root hr, exceptBind_ok, hk] at h
      exact Except.noConfusion h
    | ok key =>
      rw [workspace_root_eq env fs uid cp root key hr hk] at h
      injection h with h2
      have hw : (root ++ ["workspaces"]) ++ [key] = w := congrArg Prod.fst h2
      have hfs : mkdirParents (mkdirParents (mkdirParents (mkdirParents fs
          (root ++ ["workspaces"])) (root ++ ["recovery"])) (root ++ ["logs"]))
          ((root ++ ["workspaces"]) ++ [key]) = fs' := congrArg Prod.snd h2
      exact ⟨root, key, rfl, rfl, hw.symm, by rw [← hfs, hw]⟩

theorem workspace_root_created (env : Env) (fs : FS) (uid cp : Option String)
    (w : PathC) (fs' : FS) (h : workspace_root env fs uid cp = .ok (w, fs')) :
    (∀ q ∈ fs, q ∈ fs') ∧ w ∈ fs' ∧
    ∃ root, app_local_data_root env = .ok root ∧
      root ++ ["workspaces"] ∈ fs' ∧ root ++ ["recovery"] ∈ fs' ∧ root ++ ["logs"] ∈ fs' := by
  rcases workspace_root_ok_inv env fs uid cp w fs' h with ⟨root, key, hr, _, hw, hfs⟩
  subst hfs
  refine ⟨?_, ?_, root, hr, ?_, ?_, ?_⟩
  · intro q hq
    exact mem_mkdirParents_of_mem _ _ _ (mem_mkdirParents_of_mem _ _ _
      (mem_mkdirParents_of_mem _ _ _ (mem_mkdirParents_of_mem _ _ _ hq)))
  · exact prefixesOf_mem_mkdirParents _ _ _ (self_mem_prefixesOf w (by simp [hw]))
  · exact mem_mkdirParents_of_mem _ _ _ (mem_mkdirParents_of_mem _ _ _
      (mem_mkdirParents_of_mem _ _ _
        (prefixesOf_mem_mkdirParents _ _ _ (append_single_mem_prefixesOf root "workspaces"))))
  · exact mem_mkdirParents_of_mem _ _ _ (mem_mkdirParents_of_mem _ _ _
      (prefixesOf_mem_mkdirParents _ _ _ (append_single_mem_prefixesOf root "recovery")))
  · exact mem_mkdirParents_of_mem _ _ _
      (prefixesOf_mem_mkdirParents _ _ _ (append_single_mem_prefixesOf root "logs"))

theorem workspace_root_superset (env : Env) (fs : FS) (uid cp : Option String)
    (w : PathC) (fs' : FS) (g : FS)
    (h : workspace_root env fs uid cp = .ok (w, fs'))
    (hg : ∀ q ∈ fs', q ∈ g) :
    workspace_root env g uid cp = .ok (w, g) := by
  rcases workspace_root_ok_inv env fs uid cp w fs' h with ⟨root, key, hr, hk, hw, hfs⟩
  have hpre : ∀ p : PathC, (∀ q ∈ prefixesOf p, q ∈ fs') → mkdirParents g p = g := by
    intro p hp
    exact mkdirParents_eq_self g p fun q hq => hg q (hp q hq)
  have hin : ∀ (b : FS) (p : PathC), (∀ q ∈ mkdirParents b p, q ∈ fs') →
      ∀ q ∈ prefixesOf p, q ∈ fs' := by
    intro b p hb q hq
    exact hb q (prefixesOf_mem_mkdirParents b p q hq)
  have hsub4 : ∀ q ∈ mkdirParents (mkdirParents (mkdirParents (mkdirParents fs
      (root ++ ["workspaces"])) (root ++ ["recovery"])) (root ++ ["logs"])) w, q ∈ fs' := by
    intro q hq
    rw [hfs]
    exact hq
  have hsub3 : ∀ q ∈ mkdirParents (mkdirParents (mkdirParents fs
      (root ++ ["workspaces"])) (root ++ ["recovery"])) (root ++ ["logs"]), q ∈ fs' :=
    fun q hq => hsub4 q (mem_mkdirParents_of_mem _ _ _ hq)
  have hsub2 : ∀ q ∈ mkdirParents (mkdirParents fs (root ++ ["workspaces"]))
      (root ++ ["recovery"]), q ∈ fs' :=
    fun q hq => hsub3 q (mem_mkdirParents_of_mem _ _ _ hq)
  have hsub1 : ∀ q ∈ mkdirParents fs (root ++ ["workspaces"]), q ∈ fs' :=
    fun q hq => hsub2 q (mem_mkdirParents_of_mem _ _ _ hq)
  rw [workspace_root_eq env g uid cp root key hr hk,
    hpre (root ++ ["workspaces"]) (hin fs _ hsub1),
    hpre (root ++ ["recovery"]) (hin _ _ hsub2),
    hpre (root ++ ["logs"]) (hin _ _ hsub3),
    hpre ((root ++ ["workspaces"]) ++ [key]) (by rw [← hw]; exact hin _ _ hsub4), ← hw]

/-- Determines `unpacked_dir` from a successful `workspace_root` call. -/
theorem unpacked_dir_eq (env : Env) (fs : FS) (uid cp : Option String)
    (w2 : PathC) (fs2 : FS) (h : workspace_root env fs uid cp = .ok (w2, fs2)) :
    unpacked_dir env fs uid cp =
      .ok (w2 ++ ["unpacked"], mkdirParents fs2 (w2 ++ ["unpacked"])) := by
  unfold unpacked_dir
  rw [h, exceptBind_ok]

theorem unpacked_dir_ok_inv (env : Env) (fs : FS) (uid cp : Option String)
    (u : PathC) (fsu : FS) (h : unpacked_dir env fs uid cp = .ok (u, fsu)) :
    ∃ w2 fs2, workspace_root env fs uid cp = .ok (w2, fs2) ∧
      u = w2 ++ ["unpacked"] ∧ fsu = mkdirParents fs2 (w2 ++ ["unpacked"]) := by
  cases hw : workspace_root env fs uid cp with
  | error e =>
    unfold unpacked_dir at h
    rw [hw, exceptBind_err] at h
    exact Except.noConfusion h
  | ok pr =>
    rcases pr with ⟨w2, fs2⟩
    rw [unpacked_dir_eq env fs uid cp w2 fs2 hw] at h
    injection h with h2
    exact ⟨w2, fs2, rfl, (congrArg Prod.fst h2).symm, (congrArg Prod.snd h2).symm⟩

/-! ## The claims -/

/-- C1: for every permanent identifier accepted by the validator, the key
resolver returns it unchanged as the project key, whatever container path
is also supplied — the identifier branch takes precedence and the path is
ignored. -/
theorem claim1_uid_precedence (env : Env) (u : String) (cp : Option String)
    (h : isUUID u = true) :
    project_key env (some u) cp = .ok u ∧
    project_key env (some u) cp = project_key env (some u) none := by
  refine ⟨project_key_uid_eq env u cp h, ?_⟩
  rw [project_key_uid_eq env u cp h, project_key_uid_eq env u none h]

/-- C1 witness: a concrete canonical identifier supplied together with a
container path resolves to the identifier itself. -/
theorem claim1_uid_precedence_w :
    project_key env0 (some "3fa85f64-5717-4562-b3fc-2c963f66afa6") (some "/a/demo.cldl") =
      .ok "3fa85f64-5717-4562-b3fc-2c963f66afa6" :=
  (claim1_uid_precedence env0 "3fa85f64-5717-4562-b3fc-2c963f66afa6"
    (some "/a/demo.cldl") rfl).1

/-- C2: with no usable identifier but a container path, the key is
`path_` followed by the first 16 characters of the SHA-256 hex digest of
the UTF-8 encoding of the path's canonical absolute form; the 16
characters are lowercase hex digits, and any two path spellings with the
same canonical absolute form yield identical keys. -/
theorem claim2_path_hash_key (env : Env) (uid : Option String) (p : String)
    (h : uidOk uid = false) :
    project_key env uid (some p) =
      .ok ("path_" ++ (⟨(sha256Hexdigest (utf8Encode (env.resolve p))).take 16⟩ : String)) ∧
    (∀ c ∈ (sha256Hexdigest (utf8Encode (env.resolve p))).take 16, c ∈ lowHexChars) ∧
    ∀ p2 : String, env.resolve p2 = env.resolve p →
      project_key env uid (some p2) = project_key env uid (some p) := by
  refine ⟨?_, ?_, ?_⟩
  · rw [project_key_fb_eq env uid (some p) h]
    rfl
  · intro c hc
    exact sha256Hexdigest_mem _ c (List.take_subset 16 _ hc)
  · intro p2 h2
    rw [project_key_fb_eq env uid (some p2) h, project_key_fb_eq env uid (some p) h]
    simp [project_key_fb, h2]

/-- C2 witness: a concrete container path with no identifier yields the
truncated-digest key. -/
theorem claim2_path_hash_key_w :
    project_key env0 none (some "/home/u/project.cldl") =
      .ok ("path_" ++
        (⟨(sha256Hexdigest (utf8Encode (env0.resolve "/home/u/project.cldl"))).take 16⟩ : String)) :=
  (claim2_path_hash_key env0 none "/home/u/project.cldl" rfl).1

/-- C3 counterexample: the identifier validator is lenient — a 32-digit
hex string without hyphens is accepted and returned unchanged, and that
key matches neither arm of the stated grammar (not canonical hyphenated
form, not a `path_` key). -/
theorem claim3_grammar_counterex :
    project_key env0 (some "12345678123456781234567812345678") none =
      .ok "12345678123456781234567812345678" ∧
    specKeyGrammar "12345678123456781234567812345678" = false :=
  ⟨rfl, rfl⟩

/-- C3 (amended): every key the resolver returns is either the identifier
input itself, accepted by the lenient validator `isUUID` (which admits
non-canonical spellings such as unhyphenated 32-digit hex, braces, and a
`urn:uuid:` prefix), or `path_` followed by exactly 16 lowercase hex
characters. -/
theorem claim3_grammar_amended (env : Env) (uid cp : Option String) (k : String)
    (h : project_key env uid cp = .ok k) :
    (isUUID k = true ∧ uid = some k) ∨ pathKeyShape k = true := by
  by_cases hu : uidOk uid = true
  · cases uid with
    | none => exact absurd hu (by simp [uidOk])
    | some u =>
      have h' : (decide (u ≠ "") && isUUID u) = true := hu
      rw [Bool.and_eq_true] at h'
      have hUU : isUUID u = true := h'.2
      rw [project_key_uid_eq env u cp hUU] at h
      have hk : u = k := Except.ok.inj h
      subst hk
      exact Or.inl ⟨hUU, rfl⟩
  · have hfb : uidOk uid = false := by
      revert hu
      cases uidOk uid <;> simp
    rw [project_key_fb_eq env uid cp hfb] at h
    cases cp with
    | none => exact Except.noConfusion h
    | some p =>
      have hk : ("path_" ++
          (⟨(sha256Hexdigest (utf8Encode (env.resolve p))).take 16⟩ : String)) = k :=
        Except.ok.inj h
      subst hk
      exact Or.inr (pathKey_shape _)

/-- C3 (amended) witness: the grammar disjunction at a concrete
canonical identifier. -/
theorem claim3_grammar_amended_w :
    (isUUID "3fa85f64-5717-4562-b3fc-2c963f66afa6" = true ∧
      (some "3fa85f64-5717-4562-b3fc-2c963f66afa6" : Option String) =
        some "3fa85f64-5717-4562-b3fc-2c963f66afa6") ∨
    pathKeyShape "3fa85f64-5717-4562-b3fc-2c963f66afa6" = true :=
  claim3_grammar_amended env0 (some "3fa85f64-5717-4562-b3fc-2c963f66afa6") none
    "3fa85f64-5717-4562-b3fc-2c963f66afa6" rfl

/-- C4: resolution fails — with the source's ValueError — exactly when
the identity carries neither a usable identifier nor a container path; an
unusable identifier with no path falls through to that error (no crash),
and an unusable identifier with a path falls through to the path branch. -/
theorem claim4_invalid_identity (env : Env) (uid cp : Option String) :
    (project_key env uid cp =
        .error (.valueError "You need either project_uid or container_path to calculate the key.") ↔
      uidOk uid = false ∧ cp = none) ∧
    ∀ p : String, uidOk uid = false →
      project_key env uid (some p) = project_key env none (some p) := by
  constructor
  · constructor
    · intro h
      by_cases hu : uidOk uid = true
      · cases uid with
        | none => exact absurd hu (by simp [uidOk])
        | some u =>
          have h' : (decide (u ≠ "") && isUUID u) = true := hu
          rw [Bool.and_eq_true] at h'
          have hUU : isUUID u = true := h'.2
          rw [project_key_uid_eq env u cp hUU] at h
          exact Except.noConfusion h
      · have hfb : uidOk uid = false := by
          revert hu
          cases uidOk uid <;> simp
        refine ⟨hfb, ?_⟩
        cases cp with
        | none => rfl
        | some p =>
          rw [project_key_fb_eq env uid (some p) hfb] at h
          exact Except.noConfusion h
    · rintro ⟨hfb, rfl⟩
      rw [project_key_fb_eq env uid none hfb]
      rfl
  · intro p hfb
    rw [project_key_fb_eq env uid (some p) hfb]
    rfl

/-- C4 witness: an invalid identifier with no path errors; an invalid
identifier with a path resolves the same as no identifier with that path. -/
theorem claim4_invalid_identity_w :
    project_key env0 (some "not-a-uuid") none =
      .error (.valueError "You need either project_uid or container_path to calculate the key.") ∧
    project_key env0 (some "not-a-uuid") (some "/a/demo.cldl") =
      project_key env0 none (some "/a/demo.cldl") :=
  ⟨(claim4_invalid_identity env0 (some "not-a-uuid") none).1.mpr ⟨rfl, rfl⟩,
   (claim4_invalid_identity env0 (some "not-a-uuid") (some "/a/demo.cldl")).2
     "/a/demo.cldl" rfl⟩

/-- C5: `ensure_base_dirs` returns the AppDirs of fixed-name children of
the resolved root; on disk it creates exactly the workspaces, recovery and
logs directories together with their ancestors (recursively, pre-existing
directories not an error), and the backups directory is computed in the
returned value but never created. -/
theorem claim5_ensure_base_dirs (env : Env) (fs : FS) (root : PathC)
    (dirs : AppDirs) (fs' : FS)
    (hr : app_local_data_root env = .ok root)
    (h : ensure_base_dirs env fs = .ok (dirs, fs')) :
    dirs = { root := root, workspaces := root ++ ["workspaces"],
             backups := root ++ ["backups"], recovery := root ++ ["recovery"],
             logs := root ++ ["logs"] } ∧
    (∀ q : PathC, q ∈ fs' ↔ q ∈ fs ∨ q ∈ prefixesOf (root ++ ["workspaces"]) ∨
      q ∈ prefixesOf (root ++ ["recovery"]) ∨ q ∈ prefixesOf (root ++ ["logs"])) ∧
    root ++ ["workspaces"] ∈ fs' ∧ root ++ ["recovery"] ∈ fs' ∧ root ++ ["logs"] ∈ fs' ∧
    (root ++ ["backups"] ∈ fs' ↔ root ++ ["backups"] ∈ fs) := by
  rw [ensure_base_dirs_eq env fs root hr] at h
  injection h with h2
  have hd : (⟨root, root ++ ["workspaces"], root ++ ["backups"], root ++ ["recovery"],
      root ++ ["logs"]⟩ : AppDirs) = dirs := congrArg Prod.fst h2
  have hfs : mkdirParents (mkdirParents (mkdirParents fs (root ++ ["workspaces"]))
      (root ++ ["recovery"])) (root ++ ["logs"]) = fs' := congrArg Prod.snd h2
  subst hfs
  have hmem : ∀ q : PathC, q ∈ mkdirParents (mkdirParents (mkdirParents fs
      (root ++ ["workspaces"])) (root ++ ["recovery"])) (root ++ ["logs"]) ↔
      q ∈ fs ∨ q ∈ prefixesOf (root ++ ["workspaces"]) ∨
      q ∈ prefixesOf (root ++ ["recovery"]) ∨ q ∈ prefixesOf (root ++ ["logs"]) := by
    intro q
    rw [mem_mkdirParents, mem_mkdirParents, mem_mkdirParents]
    tauto
  refine ⟨hd.symm, hmem, ?_, ?_, ?_, ?_⟩
  · exact (hmem _).2 (Or.inr (Or.inl (append_single_mem_prefixesOf root "workspaces")))
  · exact (hmem _).2 (Or.inr (Or.inr (Or.inl (append_single_mem_prefixesOf root "recovery"))))
  · exact (hmem _).2 (Or.inr (Or.inr (Or.inr (append_single_mem_prefixesOf root "logs"))))
  · constructor
    · intro hb
      rcases (hmem _).1 hb with hq | hq | hq | hq
      · exact hq
      · exact absurd hq (append_single_not_mem_prefixesOf root "backups" "workspaces" (by decide))
      · exact absurd hq (append_single_not_mem_prefixesOf root "backups" "recovery" (by decide))
      · exact absurd hq (append_single_not_mem_prefixesOf root "backups" "logs" (by decide))
    · intro hb
      exact (hmem _).2 (Or.inl hb)

/-- C5 witness: on an empty filesystem the three directories are created
and backups is not. -/
theorem claim5_ensure_base_dirs_w :
    ["r", "workspaces"] ∈
      [(["r"] : PathC), ["r", "workspaces"], ["r", "recovery"], ["r", "logs"]] ∧
    ["r", "recovery"] ∈
      [(["r"] : PathC), ["r", "workspaces"], ["r", "recovery"], ["r", "logs"]] ∧
    ["r", "logs"] ∈
      [(["r"] : PathC), ["r", "workspaces"], ["r", "recovery"], ["r", "logs"]] ∧
    (["r", "backups"] ∈
      [(["r"] : PathC), ["r", "workspaces"], ["r", "recovery"], ["r", "logs"]] ↔
      ["r", "backups"] ∈ ([] : FS)) := by
  have t := claim5_ensure_base_dirs env0 [] ["r"]
    { root := ["r"], workspaces := ["r", "workspaces"], backups := ["r", "backups"],
      recovery := ["r", "recovery"], logs := ["r", "logs"] }
    [(["r"] : PathC), ["r", "workspaces"], ["r", "recovery"], ["r", "logs"]] rfl rfl
  exact ⟨t.2.2.1, t.2.2.2.1, t.2.2.2.2.1, t.2.2.2.2.2⟩

/-- C6: for every identity the resolver accepts, `workspace_root` and
`unpacked_dir` are idempotent — a second call on the filesystem produced
by the first succeeds, returns the identical path (`workspaces/<key>/`
resp. `<workspace_root>/unpacked/`) and leaves the filesystem unchanged,
directory creation not erroring on an existing directory. -/
theorem claim6_idempotent (env : Env) (fs : FS) (uid cp : Option String)
    (w : PathC) (fs' : FS) (u : PathC) (fsu : FS) :
    (workspace_root env fs uid cp = .ok (w, fs') →
      workspace_root env fs' uid cp = .ok (w, fs') ∧
      ∃ root key, app_local_data_root env = .ok root ∧
        project_key env uid cp = .ok key ∧ w = (root ++ ["workspaces"]) ++ [key]) ∧
    (unpacked_dir env fs uid cp = .ok (u, fsu) →
      unpacked_dir env fsu uid cp = .ok (u, fsu) ∧
      ∃ w2 fs2, workspace_root env fs uid cp = .ok (w2, fs2) ∧ u = w2 ++ ["unpacked"]) := by
  constructor
  · intro h
    refine ⟨workspace_root_superset env fs uid cp w fs' fs' h (fun _ hq => hq), ?_⟩
    rcases workspace_root_ok_inv env fs uid cp w fs' h with ⟨root, key, hrr, hk, hw, _⟩
    exact ⟨root, key, hrr, hk, hw⟩
  · intro h
    rcases unpacked_dir_ok_inv env fs uid cp u fsu h with ⟨w2, fs2, hwr, hu, hfsu⟩
    subst hu
    subst hfsu
    have hws2 : workspace_root env (mkdirParents fs2 (w2 ++ ["unpacked"])) uid cp =
        .ok (w2, mkdirParents fs2 (w2 ++ ["unpacked"])) :=
      workspace_root_superset env fs uid cp w2 fs2 _ hwr
        (fun q hq => mem_mkdirParents_of_mem _ _ _ hq)
    refine ⟨?_, w2, fs2, hwr, rfl⟩
    rw [unpacked_dir_eq env _ uid cp w2 _ hws2,
      mkdirParents_eq_self _ _ (fun q hq => prefixesOf_mem_mkdirParents _ _ _ hq)]

/-- C6 witness: both calls repeated on their own output filesystems at a
concrete identifier. -/
theorem claim6_idempotent_w :
    workspace_root env0
      [(["r"] : PathC), ["r", "workspaces"], ["r", "recovery"], ["r", "logs"],
        ["r", "workspaces", "3fa85f64-5717-4562-b3fc-2c963f66afa6"]]
      (some "3fa85f64-5717-4562-b3fc-2c963f66afa6") none =
      .ok (["r", "workspaces", "3fa85f64-5717-4562-b3fc-2c963f66afa6"],
        [(["r"] : PathC), ["r", "workspaces"], ["r", "recovery"], ["r", "logs"],
          ["r", "workspaces", "3fa85f64-5717-4562-b3fc-2c963f66afa6"]]) ∧
    unpacked_dir env0
      [(["r"] : PathC), ["r", "workspaces"], ["r", "recovery"], ["r", "logs"],
        ["r", "workspaces", "3fa85f64-5717-4562-b3fc-2c963f66afa6"],
        ["r", "workspaces", "3fa85f64-5717-4562-b3fc-2c963f66afa6", "unpacked"]]
      (some "3fa85f64-5717-4562-b3fc-2c963f66afa6") none =
      .ok (["r", "workspaces", "3fa85f64-5717-4562-b3fc-2c963f66afa6", "unpacked"],
        [(["r"] : PathC), ["r", "workspaces"], ["r", "recovery"], ["r", "logs"],
          ["r", "workspaces", "3fa85f64-5717-4562-b3fc-2c963f66afa6"],
          ["r", "workspaces", "3fa85f64-5717-4562-b3fc-2c963f66afa6", "unpacked"]]) :=
  ⟨((claim6_idempotent env0 [] (some "3fa85f64-5717-4562-b3fc-2c963f66afa6") none
      ["r", "workspaces", "3fa85f64-5717-4562-b3fc-2c963f66afa6"]
      [(["r"] : PathC), ["r", "workspaces"], ["r", "recovery"], ["r", "logs"],
        ["r", "workspaces", "3fa85f64-5717-4562-b3fc-2c963f66afa6"]]
      [] []).1 rfl).1,
   ((claim6_idempotent env0 [] (some "3fa85f64-5717-4562-b3fc-2c963f66afa6") none
      [] []
      ["r", "workspaces", "3fa85f64-5717-4562-b3fc-2c963f66afa6", "unpacked"]
      [(["r"] : PathC), ["r", "workspaces"], ["r", "recovery"], ["r", "logs"],
        ["r", "workspaces", "3fa85f64-5717-4562-b3fc-2c963f66afa6"],
        ["r", "workspaces", "3fa85f64-5717-4562-b3fc-2c963f66afa6", "unpacked"]]).2 rfl).1⟩

/-- Determines `pack_temp_path` from the resolved root. -/
theorem pack_temp_path_eq (env : Env) (fs : FS) (p : String) (root : PathC)
    (hr : app_local_data_root env = .ok root) :
    pack_temp_path env fs p = .ok ((root ++ ["tmp"]) ++ [pathStem p ++ ".tmp.cldl"],
      mkdirParents (mkdirParents (mkdirParents (mkdirParents fs (root ++ ["workspaces"]))
        (root ++ ["recovery"])) (root ++ ["logs"])) (root ++ ["tmp"])) := by
  unfold pack_temp_path
  rw [ensure_base_dirs_eq env fs root hr, exceptBind_ok]

/-- C7: `pack_temp_path(p)` is `<root>/tmp/<stem of p>.tmp.cldl`, with the
shared `tmp` directory created on disk; the result is a function of the
filename stem alone, so container paths in different directories with the
same filename collide on the identical temp path. -/
theorem claim7_pack_temp (env : Env) (fs : FS) (p : String) (t : PathC) (fs' : FS)
    (h : pack_temp_path env fs p = .ok (t, fs')) :
    (∃ root, app_local_data_root env = .ok root ∧
      t = (root ++ ["tmp"]) ++ [pathStem p ++ ".tmp.cldl"] ∧ root ++ ["tmp"] ∈ fs') ∧
    ∀ p2 : String, pathStem p2 = pathStem p →
      pack_temp_path env fs p2 = pack_temp_path env fs p := by
  cases hr : app_local_data_root env with
  | error e =>
    unfold pack_temp_path at h
    rw [ensure_base_dirs_err env fs e hr, exceptBind_err] at h
    exact Except.noConfusion h
  | ok root =>
    rw [pack_temp_path_eq env fs p root hr] at h
    injection h with h2
    have ht : (root ++ ["tmp"]) ++ [pathStem p ++ ".tmp.cldl"] = t := congrArg Prod.fst h2
    have hfs : mkdirParents (mkdirParents (mkdirParents (mkdirParents fs
        (root ++ ["workspaces"])) (root ++ ["recovery"])) (root ++ ["logs"]))
        (root ++ ["tmp"]) = fs' := congrArg Prod.snd h2
    constructor
    · refine ⟨root, rfl, ht.symm, ?_⟩
      rw [← hfs]
      exact prefixesOf_mem_mkdirParents _ _ _
        (append_single_mem_prefixesOf root "tmp")
    · intro p2 hst
      rw [pack_temp_path_eq env fs p2 root hr, pack_temp_path_eq env fs p root hr, hst]

/-- C7 witness: `/a/demo.cldl` and `/b/demo.cldl` give the identical
temp path. -/
theorem claim7_pack_temp_w :
    pack_temp_path env0 [] "/b/demo.cldl" = pack_temp_path env0 [] "/a/demo.cldl" :=
  (claim7_pack_temp env0 [] "/a/demo.cldl" ["r", "tmp", "demo.tmp.cldl"]
    [(["r"] : PathC), ["r", "workspaces"], ["r", "recovery"], ["r", "logs"], ["r", "tmp"]]
    rfl).2 "/b/demo.cldl" rfl

/-- C8 counterexample: with a non-empty identity already registered, a
call with different arguments changes the registered identity — the call
is not a no-op. -/
theorem claim8_register_counterex :
    ensure_app_identity ⟨"ChiharaYakou", "CLDL Editor"⟩ "OtherOrg" "OtherApp" ≠
      (⟨"ChiharaYakou", "CLDL Editor"⟩ : QtAppIdentity) ∧
    (⟨"ChiharaYakou", "CLDL Editor"⟩ : QtAppIdentity).organizationName ≠ "" := by
  exact ⟨by decide, by decide⟩

/-- C8 (amended): registration cannot fail (it is total) and always sets
the identity to the supplied arguments: a repeated call with the same
arguments is a no-op, but a call with different arguments overwrites an
already-set identity rather than leaving it unchanged. -/
theorem claim8_register_amended (st : QtAppIdentity) (org app : String) :
    ensure_app_identity st org app =
      { organizationName := org, applicationName := app } ∧
    ensure_app_identity (ensure_app_identity st org app) org app =
      ensure_app_identity st org app :=
  ⟨rfl, rfl⟩

/-- C9: `lock_path` and `session_path` side-effect the filesystem exactly
like `workspace_root` — the root is re-resolved, the base directories are
re-ensured and the per-project workspace directory is created if absent —
before `lock.json` / `session.json` under the workspace root is
returned. -/
theorem claim9_lock_session (env : Env) (fs : FS) (uid cp : Option String)
    (w : PathC) (fs' : FS) (h : workspace_root env fs uid cp = .ok (w, fs')) :
    lock_path env fs uid cp = .ok (w ++ ["lock.json"], fs') ∧
    session_path env fs uid cp = .ok (w ++ ["session.json"], fs') ∧
    w ∈ fs' ∧
    ∃ root, app_local_data_root env = .ok root ∧
      root ++ ["workspaces"] ∈ fs' ∧ root ++ ["recovery"] ∈ fs' ∧ root ++ ["logs"] ∈ fs' := by
  have hc := workspace_root_created env fs uid cp w fs' h
  refine ⟨?_, ?_, hc.2.1, hc.2.2⟩
  · unfold lock_path
    rw [h, exceptBind_ok]
  · unfold session_path
    rw [h, exceptBind_ok]

/-- C9 witness: lock and session paths at a concrete identifier, with the
filesystem already mutated exactly as by `workspace_root`. -/
theorem claim9_lock_session_w :
    lock_path env0 [] (some "3fa85f64-5717-4562-b3fc-2c963f66afa6") none =
      .ok (["r", "workspaces", "3fa85f64-5717-4562-b3fc-2c963f66afa6", "lock.json"],
        [(["r"] : PathC), ["r", "workspaces"], ["r", "recovery"], ["r", "logs"],
          ["r", "workspaces", "3fa85f64-5717-4562-b3fc-2c963f66afa6"]]) ∧
    session_path env0 [] (some "3fa85f64-5717-4562-b3fc-2c963f66afa6") none =
      .ok (["r", "workspaces", "3fa85f64-5717-4562-b3fc-2c963f66afa6", "session.json"],
        [(["r"] : PathC), ["r", "workspaces"], ["r", "recovery"], ["r", "logs"],
          ["r", "workspaces", "3fa85f64-5717-4562-b3fc-2c963f66afa6"]]) := by
  have t := claim9_lock_session env0 [] (some "3fa85f64-5717-4562-b3fc-2c963f66afa6") none
    ["r", "workspaces", "3fa85f64-5717-4562-b3fc-2c963f66afa6"]
    [(["r"] : PathC), ["r", "workspaces"], ["r", "recovery"], ["r", "logs"],
      ["r", "workspaces", "3fa85f64-5717-4562-b3fc-2c963f66afa6"]] rfl
  exact ⟨t.1, t.2.1⟩

/-- C10: the two key namespaces are disjoint — every path-branch key is
`path_` followed by 16 lowercase hex digits, is rejected by the
identifier validator `isUUID`, and therefore never equals any key the
identifier branch can return, so workspace directory names cannot
coincide across the two branches. -/
theorem claim10_disjoint (env : Env) (uid : Option String) (p : String)
    (h : uidOk uid = false) :
    ∃ k, project_key env uid (some p) = .ok k ∧ pathKeyShape k = true ∧
      isUUID k = false ∧ ∀ u : String, isUUID u = true → k ≠ u := by
  refine ⟨"path_" ++ (⟨(sha256Hexdigest (utf8Encode (env.resolve p))).take 16⟩ : String),
    ?_, pathKey_shape _, pathKey_not_uuid _, ?_⟩
  · rw [project_key_fb_eq env uid (some p) h]
    rfl
  · intro u hu hEq
    have hfalse := pathKey_not_uuid (utf8Encode (env.resolve p))
    rw [hEq, hu] at hfalse
    exact Bool.noConfusion hfalse

/-- C10 witness: the disjointness at a concrete container path. -/
theorem claim10_disjoint_w :
    ∃ k, project_key env0 none (some "/a/demo.cldl") = .ok k ∧ pathKeyShape k = true ∧
      isUUID k = false ∧ ∀ u : String, isUUID u = true → k ≠ u :=
  claim10_disjoint env0 none "/a/demo.cldl" rfl

end CldlPaths
